import Mathlib

/-
  Verification of the Knot DNS per-zone journal (src/knot/journal/journal.c)
  against its natural-language specification.

  The C code is shallowly embedded: machine u32 values are modelled as Nat
  (serial comparison for equality, `serial_compare(a,b) == 0`, is plain
  equality on u32, hence Nat equality in the model); the LMDB key-value
  store is modelled as an association list; the float arithmetic of
  `check_free_space` is modelled over exact rationals with the literal
  constants of the source; fallible operations return Option.
-/

namespace Knot

/-- Error kinds, mirroring the KNOT_E* codes used by journal.c. -/
inductive Err where
  | EOK | ERROR | EINVAL | ENOENT | EBUSY | EAGAIN | ESPACE | EMALF | ENOTSUP | ENOMEM
deriving DecidableEq

/-- journal_metadata_t: the in-memory metadata mirror (all fields u32 in C). -/
structure Metadata where
  first_serial : Nat
  last_serial : Nat
  last_serial_to : Nat
  last_flushed : Nat
  merged_serial : Nat
  dirty_serial : Nat
  flags : Nat
deriving DecidableEq

/-- Flag bit LAST_FLUSHED_VALID = 1 << 0. -/
def LAST_FLUSHED_VALID : Nat := 1
/-- Flag bit SERIAL_TO_VALID = 1 << 1. -/
def SERIAL_TO_VALID : Nat := 2
/-- Flag bit MERGED_SERIAL_VALID = 1 << 2. -/
def MERGED_SERIAL_VALID : Nat := 4
/-- Flag bit DIRTY_SERIAL_VALID = 1 << 3. -/
def DIRTY_SERIAL_VALID : Nat := 8

/-- Test a metadata flag, `(metadata).flags & fl`. -/
def hasFlag (md : Metadata) (fl : Nat) : Bool := md.flags &&& fl != 0

/-- u32 mask for clearing a flag bit: `flags &= ~fl` on a 32-bit field. -/
def clearFlag (flags fl : Nat) : Nat := flags &&& (4294967295 ^^^ fl)

/-- `is_last_flushed(metadata, what)` from journal.c. -/
def isLastFlushed (md : Metadata) (what : Nat) : Bool :=
  hasFlag md LAST_FLUSHED_VALID && md.last_flushed == what

/-- `is_flushed(metadata)` from journal.c. -/
def isFlushed (md : Metadata) : Bool :=
  isLastFlushed md md.last_serial || !hasFlag md SERIAL_TO_VALID

/-- The all-zero metadata of a freshly initialized journal
(journal_open does `memset(&j->metadata, 0, ...)` and a fresh DB leaves it zero). -/
def zeroMetadata : Metadata := ⟨0, 0, 0, 0, 0, 0, 0⟩

/- ********************  chunk store (the LMDB data keyspace)  ******************** -/

/-- One stored chunk value: its header fields (journal_header_t, read via
unmake_header) plus the total stored length (`val.len`, used by the freeing
estimate) and the opaque payload bytes behind the header. -/
structure Chunk where
  serial_to : Nat
  chunk_count : Nat
  len : Nat
  payload : List Nat
deriving DecidableEq

/-- A chunk key `(serial, chunk index)` (journal_key_t, decoded). -/
abbrev ChunkKey := Nat × Nat

/-- The chunk keyspace of the journal DB, as an association list.
Insert overwrites, so keys are unique; lookup takes the first match. -/
abbrev ChunkDb := List (ChunkKey × Chunk)

/-- Exact-key lookup (`find` / `iter_seek` with exact match). -/
def findChunk (db : ChunkDb) (k : ChunkKey) : Option Chunk :=
  (db.find? (fun e => e.1 == k)).map (·.2)

/-- Key deletion (`del`). -/
def delChunk (db : ChunkDb) (k : ChunkKey) : ChunkDb :=
  db.filter (fun e => e.1 != k)

/- ********************  metadata sub-keyspace (string keys)  ******************** -/

/-- A value stored under a metadata string key: a big-endian u32 scalar
(modelled by its numeric value) or the zone name bytes. -/
inductive MetaVal where
  | num (n : Nat)
  | name (s : String)
deriving DecidableEq

/-- The string-keyed metadata keyspace, newest binding first (insert overwrites). -/
abbrev MetaDb := List (String × MetaVal)

/-- Insert/overwrite a metadata key. -/
def putMeta (db : MetaDb) (k : String) (v : MetaVal) : MetaDb := (k, v) :: db

/-- First-match lookup of a metadata key. -/
def lookupMeta (db : MetaDb) (k : String) : Option MetaVal :=
  (db.find? (fun e => e.1 == k)).map (·.2)

/- ********************  C3 / C10: journal_flush  ******************** -/

/-- journal_flush, lines 169-179: the effect on the in-memory metadata.
Only under SERIAL_TO_VALID does it set last_flushed and LAST_FLUSHED_VALID. -/
def journalFlushMd (md : Metadata) : Metadata :=
  if hasFlag md SERIAL_TO_VALID then
    { md with last_flushed := md.last_serial, flags := md.flags ||| LAST_FLUSHED_VALID }
  else md

/-- The whole observable journal state: the chunk keyspace and the string
keyspace of the backing DB, plus the in-memory metadata mirror. -/
structure JournalState where
  dataDb : ChunkDb
  metaDb : MetaDb
  metadata : Metadata
deriving DecidableEq

/-- journal_flush on the whole state: the function body touches only
`j->metadata` (no txn_beg, no insert); it returns KNOT_EOK for a non-null
journal. -/
def journalFlush (st : JournalState) : JournalState × Err :=
  ({ st with metadata := journalFlushMd st.metadata }, Err.EOK)

/- ********************  C1: the transaction shim commit  ******************** -/

/-- txn_ctx_t: shadow metadata, error state, activity flag and the metadata
puts buffered inside the currently open KV transaction. -/
structure TxnCtx where
  shadow : Metadata
  ret : Err
  active : Bool
  pending : List (String × Nat)
deriving DecidableEq

/-- update_metadata through an existing txn (`update_metadata_txn` expansion):
a txn_insert of the big-endian scalar under the string key, buffered in the
open transaction. Modelled with the KV insert itself succeeding. -/
def txnPutMeta (t : TxnCtx) (key : String) (v : Nat) : TxnCtx :=
  if t.ret != Err.EOK then t
  else { t with pending := t.pending ++ [(key, v)] }

/-- One `update_metadata_txn(t, item)` step: write the shadow value only if
it differs from the in-memory value. -/
def commitFieldWrite (oldv newv : Nat) (key : String) (t : TxnCtx) : TxnCtx :=
  if newv != oldv then txnPutMeta t key newv else t

/-- Apply the buffered puts of a committed transaction to the metadata keyspace. -/
def applyPending (db : MetaDb) (pending : List (String × Nat)) : MetaDb :=
  pending.foldl (fun d kv => putMeta d kv.1 (MetaVal.num kv.2)) db

/-- txn_commit, lines 227-246. The KV's own commit outcome is the
`kvCommitOk` parameter. Mirrors the source exactly: the seven conditional
metadata writes, the KV commit, txn_abort on failure, then the
`copy_metadata(&t->j->metadata, &t->shadow_metadata)` which the source
performs unconditionally. -/
def txnCommit (j : JournalState) (t : TxnCtx) (kvCommitOk : Bool) :
    JournalState × TxnCtx :=
  let t := if !t.active && t.ret == Err.EOK then { t with ret := Err.ERROR } else t
  if t.ret != Err.EOK then (j, t)
  else
    let t := commitFieldWrite j.metadata.first_serial t.shadow.first_serial "first_serial" t
    let t := commitFieldWrite j.metadata.last_serial t.shadow.last_serial "last_serial" t
    let t := commitFieldWrite j.metadata.last_serial_to t.shadow.last_serial_to "last_serial_to" t
    let t := commitFieldWrite j.metadata.last_flushed t.shadow.last_flushed "last_flushed" t
    let t := commitFieldWrite j.metadata.merged_serial t.shadow.merged_serial "merged_serial" t
    let t := commitFieldWrite j.metadata.dirty_serial t.shadow.dirty_serial "dirty_serial" t
    let t := commitFieldWrite j.metadata.flags t.shadow.flags "flags" t
    if kvCommitOk then
      ({ j with metaDb := applyPending j.metaDb t.pending, metadata := t.shadow },
       { t with active := false, ret := Err.EOK })
    else
      ({ j with metadata := t.shadow },
       { t with active := false, ret := Err.ERROR })

/- ********************  C2: check_free_space  ******************** -/

/-- DB_KEEP_FREE (source value 0.5f, modelled exactly). -/
def DB_KEEP_FREE : ℚ := 5/10
/-- DB_KEEP_MERGED (source value 0.44f, modelled as the literal 0.44). -/
def DB_KEEP_MERGED : ℚ := 44/100
/-- DB_KEEP_FORMERGE (source value 0.72f, modelled as the literal 0.72). -/
def DB_KEEP_FORMERGE : ℚ := 72/100
/-- The dispose factor (source constant DB_DISPOSE_RATI0; its value is 3). -/
def DB_DISPOSE_FACTOR : Nat := 3

/-- The allowed occupied fraction computed by check_free_space, lines 130-135:
start from 1 - DB_KEEP_FREE, override with 1 - DB_KEEP_MERGED when
MERGED_SERIAL_VALID, else with 1 - DB_KEEP_FORMERGE when merging is allowed. -/
def allowedOccupied (md : Metadata) (mergeAllowed : Bool) : ℚ :=
  let a := 1 - DB_KEEP_FREE
  if hasFlag md MERGED_SERIAL_VALID then 1 - DB_KEEP_MERGED
  else if mergeAllowed then 1 - DB_KEEP_FORMERGE
  else a

/-- check_free_space, lines 128-144: returns (request_free, request_free_min).
`occupied` is the usage fraction reported by the KV; the size_t cast of the
float product is modelled by the floor. -/
def checkFreeSpace (md : Metadata) (mergeAllowed : Bool) (occupied : ℚ)
    (fslimit : Nat) : Nat × Nat :=
  let allowed := allowedOccupied md mergeAllowed
  let reqMin : Nat := if allowed < occupied then ((occupied - allowed) * fslimit).floor.toNat else 0
  (DB_DISPOSE_FACTOR * reqMin, reqMin)

/- ********************  C4: store_metadata  ******************** -/

/-- JOURNAL_VERSION = 10 (BCD "1.0"). -/
def JOURNAL_VERSION : Nat := 10

/-- The sequence of (key, value) puts performed by store_metadata,
lines 423-449, in source order. Note the source's line 437: the value
written under the key stringized as dirty underscore serial is
`j->metadata.merged_serial`. -/
def storeMetadataWrites (md : Metadata) (zoneName : String) : List (String × MetaVal) :=
  [("version", MetaVal.num JOURNAL_VERSION),
   ("first_serial", MetaVal.num md.first_serial),
   ("last_serial", MetaVal.num md.last_serial),
   ("last_serial_to", MetaVal.num md.last_serial_to),
   ("last_flushed", MetaVal.num md.last_flushed),
   ("merged_serial", MetaVal.num md.merged_serial),
   ("dirty_serial", MetaVal.num md.merged_serial),
   ("flags", MetaVal.num md.flags),
   ("zone_name", MetaVal.name zoneName)]

/-- The metadata keyspace after store_metadata runs on `db`. -/
def storeMetadata (md : Metadata) (zoneName : String) (db : MetaDb) : MetaDb :=
  (storeMetadataWrites md zoneName).foldl (fun d kv => putMeta d kv.1 kv.2) db

/- ********************  C8: the resize check of journal_open  ******************** -/

/-- FSLIMIT_MIN = 1 MiB. -/
def FSLIMIT_MIN : Nat := 1048576

/-- `j->fslimit = (fslimit > FSLIMIT_MIN) ? fslimit : FSLIMIT_MIN`. -/
def clampFslimit (requested : Nat) : Nat :=
  if requested > FSLIMIT_MIN then requested else FSLIMIT_MIN

/-- Outcome of the map-size check in journal_open. `retry` is the KNOT_EAGAIN
return (spec kind RetryAfterFlush); `opened` carries the resulting on-disk
state and in-memory metadata; `err` is the KNOT_ERROR of a failed
remove_path. -/
inductive OpenOutcome (δ : Type) where
  | retry (disk : δ) (md : Metadata)
  | opened (disk : δ) (md : Metadata)
  | err
deriving DecidableEq

/-- The resize branch of journal_open, lines 1370-1387, entered after init_db
loaded `md` from disk state `disk`. If the KV mapsize exceeds j->fslimit:
an unflushed journal yields KNOT_EAGAIN with everything intact; a flushed one
is deinitialized, its directory removed (`removeOk` models remove_path) and a
fresh journal initialized, whose load_metadata leaves the zeroed metadata in
place. Otherwise the open proceeds with `md` unchanged. -/
def journalOpenResize {δ : Type} (mapsize fslimit : Nat) (md : Metadata)
    (disk freshDisk : δ) (removeOk : Bool) : OpenOutcome δ :=
  if mapsize > fslimit then
    if !isFlushed md then OpenOutcome.retry disk md
    else if removeOk then OpenOutcome.opened freshDisk zeroMetadata
    else OpenOutcome.err
  else OpenOutcome.opened disk md

/- ********************  C9: the key codec  ******************** -/

/-- Big-endian byte encoding of a u32 (htobe32 viewed as bytes). -/
def be32 (n : Nat) : List Nat :=
  [n / 16777216 % 256, n / 65536 % 256, n / 256 % 256, n % 256]

/-- make_key / make_key2: the 8 bytes of journal_key_t, serial first. -/
def makeKey (serial chunk : Nat) : List Nat := be32 serial ++ be32 chunk

/-- be32toh on 4 bytes. -/
def unbe32 (l : List Nat) : Nat :=
  match l with
  | [a, b, c, d] => ((a * 256 + b) * 256 + c) * 256 + d
  | _ => 0

/-- unmake_key, lines 349-354: decode the two u32 fields of an 8-byte key. -/
def unmakeKey (l : List Nat) : Nat × Nat := (unbe32 (l.take 4), unbe32 (l.drop 4))

/- ********************  C5 / C6: changeset iteration and loading  ******************** -/

/-- A decoded changeset as the journal observes it through the serializer
bridge: its SOA-from and SOA-to serials. -/
structure Changeset where
  serial_from : Nat
  serial_to : Nat
deriving DecidableEq

/-- iterate() in JOURNAL_ITERATION_CHANGESETS mode, lines 671-745, fused with
the changeset-building callbacks: starting at key (s, i) with the chunks of
the current changeset collected so far in acc, walk chunks in key order.
Each step reads the current chunk, decodes its header; at the last chunk of
a changeset (chunk index + 1 = header chunk count) the collected chunk
payloads are handed to the external deserializer (vals_to_changeset ->
changeset_deserialize_chunks, abstracted as the function argument deser);
iteration stops successfully when the changeset keyed `last` completes,
else continues at key (serial_to, 0). A missing key (the failed optimistic
next / seek) or a failing deserialization aborts with an error (none); the
fuel bounds the walk exactly as nontermination would hang the C loop. -/
def iterCs (deser : List (List Nat) → Option Changeset) (db : ChunkDb) (last : Nat) :
    Nat → Nat → Nat → List Chunk → Option (List Changeset)
  | 0, _, _, _ => none
  | fuel+1, s, i, acc =>
    match findChunk db (s, i) with
    | none => none
    | some c =>
      if i + 1 = c.chunk_count then
        match deser ((acc ++ [c]).map Chunk.payload) with
        | none => none
        | some ch =>
          if s = last then some [ch]
          else (iterCs deser db last fuel c.serial_to 0 []).map (fun l => ch :: l)
      else iterCs deser db last fuel s (i + 1) (acc ++ [c])

/-- load_one, lines 804-815: iterate the single-changeset range
[serial, serial] and return the one decoded changeset. -/
def loadOne (deser : List (List Nat) → Option Changeset) (fuel : Nat) (db : ChunkDb)
    (serial : Nat) : Option Changeset :=
  (iterCs deser db serial fuel serial 0 []).bind List.head?

/-- journal_load_changesets, lines 827-849: if MERGED_SERIAL_VALID is set and
the requested serial equals merged_serial, first load the merged changeset
(load_merged_changeset -> load_one at merged_serial), put it at the head of
the output, and continue iterating from its SOA-to serial; otherwise iterate
from the requested serial. The range always ends at last_serial. -/
def journalLoadChangesets (deser : List (List Nat) → Option Changeset) (fuel : Nat)
    (db : ChunkDb) (md : Metadata) (frm : Nat) : Option (List Changeset) :=
  if hasFlag md MERGED_SERIAL_VALID && frm == md.merged_serial then
    match loadOne deser fuel db md.merged_serial with
    | none => none
    | some mch =>
      (iterCs deser db md.last_serial fuel mch.serial_to 0 []).map (fun l => mch :: l)
  else iterCs deser db md.last_serial fuel frm 0 []

/-- Well-formedness of a database w.r.t. the deserializer bridge: whenever
the chunks collected for the changeset keyed s (chunks 0..i read from the
db, the one at index i closing the changeset per its header) deserialize
successfully, the resulting changeset's SOA serials agree with the key
serial and the closing chunk's header serial_to. This is the formal content
of invariant I2 plus the serializer round-trip contract. -/
def DeserWF (deser : List (List Nat) → Option Changeset) (db : ChunkDb) : Prop :=
  ∀ (s i : Nat) (acc : List Chunk) (c : Chunk) (ch : Changeset),
    acc.length = i →
    (∀ j cj, acc[j]? = some cj → findChunk db (s, j) = some cj) →
    findChunk db (s, i) = some c →
    i + 1 = c.chunk_count →
    deser ((acc ++ [c]).map Chunk.payload) = some ch →
    ch.serial_from = s ∧ ch.serial_to = c.serial_to

/- ********************  C7: delete_tofree  ******************** -/

/-- The state threaded through delete_tofree's iteration: the chunk
keyspace as mutated by the deletes, the shadow metadata, and the
deletefirst_iter_ctx_t counters freed_approx and to_be_freed. -/
structure DelState where
  db : ChunkDb
  md : Metadata
  freed : Nat
  toBeFreed : Nat
deriving DecidableEq

/-- del_tofree_itercb, lines 916-942: with to_be_freed exhausted, do nothing
(run through the rest of the records without change); otherwise add
4096 + val.len to the freed estimate, delete the current chunk, and at the
last chunk of a changeset advance first_serial to its serial_to, stop
deleting (to_be_freed = 0) and clear LAST_FLUSHED_VALID when this changeset
is the last flushed one, clear SERIAL_TO_VALID when it is the last one, and
stop deleting when the freed estimate has reached to_be_freed. -/
def delTofreeCb (s i : Nat) (c : Chunk) (st : DelState) : DelState :=
  if st.toBeFreed = 0 then st
  else
    let freed2 := st.freed + 4096 + c.len
    let db2 := delChunk st.db (s, i)
    if i + 1 = c.chunk_count then
      let md1 := { st.md with first_serial := c.serial_to }
      let lfHit := md1.last_flushed == s
      let md2 := if lfHit then { md1 with flags := clearFlag md1.flags LAST_FLUSHED_VALID } else md1
      let tbf2 := if lfHit then 0 else st.toBeFreed
      let md3 := if md2.last_serial == s then { md2 with flags := clearFlag md2.flags SERIAL_TO_VALID } else md2
      let tbf3 := if tbf2 ≤ freed2 then 0 else tbf2
      ⟨db2, md3, freed2, tbf3⟩
    else ⟨db2, st.md, freed2, st.toBeFreed⟩

/-- iterate() in JOURNAL_ITERATION_CHUNKS mode driving del_tofree_itercb:
read the chunk at the current key, fire the callback, and advance to
(serial, i+1) within a changeset or (serial_to, 0) across changesets,
stopping at the last chunk of the changeset keyed `last`. -/
def delTofreeLoop (last : Nat) : Nat → Nat → Nat → DelState → Option DelState
  | 0, _, _, _ => none
  | fuel+1, s, i, st =>
    match findChunk st.db (s, i) with
    | none => none
    | some c =>
      if i + 1 = c.chunk_count then
        if s = last then some (delTofreeCb s i c st)
        else delTofreeLoop last fuel c.serial_to 0 (delTofreeCb s i c st)
      else delTofreeLoop last fuel s (i + 1) (delTofreeCb s i c st)

/-- delete_tofree, lines 951-966: without LAST_FLUSHED_VALID report 0 freed
and do nothing; otherwise iterate [first_serial, last_serial] with the
deletion callback and report the freed estimate. Returns the final chunk
keyspace, the shadow metadata and really_freed. -/
def deleteTofree (fuel : Nat) (db : ChunkDb) (md : Metadata) (toBeFreed : Nat) :
    Option (ChunkDb × Metadata × Nat) :=
  if !hasFlag md LAST_FLUSHED_VALID then some (db, md, 0)
  else
    match delTofreeLoop md.last_serial fuel md.first_serial 0 ⟨db, md, 0, toBeFreed⟩ with
    | none => none
    | some st => some (st.db, st.md, st.freed)

/-- The chain walk from key (s, i) to the end of the changeset keyed lf,
following the same advance rule as iterate(): the list of keys visited up
to and including the end of the last-flushed changeset. Every key the walk
reads is in its output. -/
def walkUpto (db : ChunkDb) (lf : Nat) : Nat → Nat → Nat → Option (List ChunkKey)
  | 0, _, _ => none
  | fuel+1, s, i =>
    match findChunk db (s, i) with
    | none => none
    | some c =>
      if i + 1 = c.chunk_count then
        if s = lf then some [(s, i)]
        else (walkUpto db lf fuel c.serial_to 0).map (fun l => (s, i) :: l)
      else (walkUpto db lf fuel s (i + 1)).map (fun l => (s, i) :: l)

/- ********************  concrete fixtures for the witnesses  ******************** -/

/-- A concrete deserializer for witnesses: a single chunk whose payload is
the two serials. -/
def deserW : List (List Nat) → Option Changeset := fun pls =>
  match pls with
  | [[f, t]] => some ⟨f, t⟩
  | _ => none

/-- Witness DB for C6: two chained single-chunk changesets 5 -> 6 -> 7. -/
def dbW6 : ChunkDb :=
  [((5, 0), ⟨6, 1, 20, [5, 6]⟩), ((6, 0), ⟨7, 1, 20, [6, 7]⟩)]

/-- Witness metadata for C6: changesets 5..6 present, no merged changeset. -/
def mdW6 : Metadata := { zeroMetadata with first_serial := 5, last_serial := 6, last_serial_to := 7, flags := SERIAL_TO_VALID }

/-- Witness DB for C5: a merged changeset 100 -> 5 and a main changeset 5 -> 6. -/
def dbW5 : ChunkDb :=
  [((100, 0), ⟨5, 1, 20, [100, 5]⟩), ((5, 0), ⟨6, 1, 20, [5, 6]⟩)]

/-- Witness metadata for C5: merged changeset at serial 100, main DB 5..5. -/
def mdW5 : Metadata :=
  { zeroMetadata with
      first_serial := 5,
      last_serial := 5,
      last_serial_to := 6,
      merged_serial := 100,
      flags := SERIAL_TO_VALID ||| MERGED_SERIAL_VALID }

/-- Witness DB for C7: chained single-chunk changesets 5 -> 6 -> 7. -/
def dbW7 : ChunkDb :=
  [((5, 0), ⟨6, 1, 100, []⟩), ((6, 0), ⟨7, 1, 100, []⟩)]

/-- Witness metadata for C7: changeset 5 is flushed, 6 is not. -/
def mdW7 : Metadata :=
  { zeroMetadata with
      first_serial := 5,
      last_serial := 6,
      last_serial_to := 7,
      last_flushed := 5,
      flags := LAST_FLUSHED_VALID ||| SERIAL_TO_VALID }

end Knot

/- ************************  theorems  ************************ -/

namespace Knot

/-- Lexicographic comparison of nonempty byte lists, unfolded one step. -/
theorem lex_cons_cons {x y : Nat} {xs ys : List Nat} :
    List.Lex (· < ·) (x :: xs) (y :: ys) ↔ x < y ∨ (x = y ∧ List.Lex (· < ·) xs ys) := by
  constructor
  · intro h
    cases h with
    | cons h => exact Or.inr ⟨rfl, h⟩
    | rel h => exact Or.inl h
  · rintro (h | ⟨rfl, h⟩)
    · exact List.Lex.rel h
    · exact List.Lex.cons h

/-- Lexicographic comparison splits over a common-length prefix. -/
theorem lex_append_iff (p q u v : List Nat) (hlen : p.length = q.length) :
    List.Lex (· < ·) (p ++ u) (q ++ v)
      ↔ List.Lex (· < ·) p q ∨ (p = q ∧ List.Lex (· < ·) u v) := by
  induction p generalizing q with
  | nil =>
    cases q with
    | nil => simp
    | cons y ys => simp at hlen
  | cons x xs ih =>
    cases q with
    | nil => simp at hlen
    | cons y ys =>
      simp only [List.cons_append, lex_cons_cons, ih ys (by simpa using hlen),
        List.cons.injEq]
      tauto

/-- An empty list is never lexicographically below an empty list. -/
theorem lex_nil_nil_iff : List.Lex (· < ·) ([] : List Nat) [] ↔ False :=
  iff_false_intro (List.Lex.not_nil_right _ _)

/-- The 4-byte big-endian encoding is strictly monotone w.r.t.
lexicographic byte order. -/
theorem be32_lt_iff (a b : Nat) (ha : a < 4294967296) (hb : b < 4294967296) :
    List.Lex (· < ·) (be32 a) (be32 b) ↔ a < b := by
  simp only [be32, lex_cons_cons, lex_nil_nil_iff, and_false, or_false]
  constructor
  · intro h
    rcases h with h | ⟨e3, h | ⟨e2, h | ⟨e1, h⟩⟩⟩ <;> omega
  · intro h
    rcases Nat.lt_trichotomy (a / 16777216 % 256) (b / 16777216 % 256) with h3 | h3 | h3
    · exact Or.inl h3
    · refine Or.inr ⟨h3, ?_⟩
      rcases Nat.lt_trichotomy (a / 65536 % 256) (b / 65536 % 256) with h2 | h2 | h2
      · exact Or.inl h2
      · refine Or.inr ⟨h2, ?_⟩
        rcases Nat.lt_trichotomy (a / 256 % 256) (b / 256 % 256) with h1 | h1 | h1
        · exact Or.inl h1
        · exact Or.inr ⟨h1, by omega⟩
        · exact absurd h (by omega)
      · exact absurd h (by omega)
    · exact absurd h (by omega)

/-- The 4-byte big-endian encoding is injective below 2^32. -/
theorem be32_inj_iff (a b : Nat) (ha : a < 4294967296) (hb : b < 4294967296) :
    be32 a = be32 b ↔ a = b := by
  simp only [be32, List.cons.injEq, and_true]
  omega

/-- Decoding inverts encoding below 2^32. -/
theorem unbe32_be32 (a : Nat) (ha : a < 4294967296) : unbe32 (be32 a) = a := by
  simp only [be32, unbe32]
  omega

/-- Claim C9: the chunk-key encoding is injective and order-preserving.
For u32 inputs, byte-wise lexicographic comparison of the 8-byte big-endian
encodings produced by make_key orders key pairs exactly as numeric
comparison of (serial, chunk index) with serial compared first, and
unmake_key recovers the original pair (hence the encoding is injective). -/
theorem c9_key_codec_order (s1 c1 s2 c2 : Nat)
    (hs1 : s1 < 4294967296) (hc1 : c1 < 4294967296)
    (hs2 : s2 < 4294967296) (hc2 : c2 < 4294967296) :
    (List.Lex (· < ·) (makeKey s1 c1) (makeKey s2 c2)
      ↔ (s1 < s2 ∨ (s1 = s2 ∧ c1 < c2))) ∧
    unmakeKey (makeKey s1 c1) = (s1, c1) := by
  constructor
  · rw [makeKey, makeKey, lex_append_iff _ _ _ _ (by simp [be32]),
      be32_lt_iff s1 s2 hs1 hs2, be32_inj_iff s1 s2 hs1 hs2,
      be32_lt_iff c1 c2 hc1 hc2]
  · show (unbe32 ((be32 s1 ++ be32 c1).take 4), unbe32 ((be32 s1 ++ be32 c1).drop 4)) = (s1, c1)
    have ht : (be32 s1 ++ be32 c1).take 4 = be32 s1 := by simp [be32]
    have hd : (be32 s1 ++ be32 c1).drop 4 = be32 c1 := by simp [be32]
    rw [ht, hd, unbe32_be32 s1 hs1, unbe32_be32 c1 hc1]

/-- Witness for c9_key_codec_order at concrete keys (1, 2) and (1, 3):
the encoded keys compare lexicographically and decode back. -/
theorem c9_key_codec_order_witness :
    (List.Lex (· < ·) (makeKey 1 2) (makeKey 1 3) ↔ (1 < 1 ∨ (1 = 1 ∧ 2 < 3))) ∧
    unmakeKey (makeKey 1 2) = (1, 2) :=
  c9_key_codec_order 1 2 1 3 (by norm_num) (by norm_num) (by norm_num) (by norm_num)

/-- Claim C1 (code_bug evaluation): with all-zero in-memory metadata and a
shadow that changed last_serial to 1, a txn_commit whose KV commit FAILS
still overwrites the journal's in-memory metadata with the shadow copy
(the copy_metadata call in txn_commit is unconditional), contradicting the
claim that a failed commit leaves the in-memory mirror unchanged. The
metadata keyspace is left without the write, so memory and disk disagree. -/
theorem c1_commit_failure_overwrites_metadata :
    (txnCommit ⟨[], [], zeroMetadata⟩
        ⟨{ zeroMetadata with last_serial := 1 }, Err.EOK, true, []⟩ false).1.metadata
      = { zeroMetadata with last_serial := 1 } ∧
    ({ zeroMetadata with last_serial := 1 } : Metadata) ≠ zeroMetadata ∧
    (txnCommit ⟨[], [], zeroMetadata⟩
        ⟨{ zeroMetadata with last_serial := 1 }, Err.EOK, true, []⟩ false).1.metaDb = [] := by
  decide

/-- Claim C3 counterexample: on an opened journal whose metadata is all zero
(a fresh journal: SERIAL_TO_VALID not set), journal_flush does NOT set
LAST_FLUSHED_VALID, refuting the claim that it always sets the flag. -/
theorem c3_flush_empty_counterexample :
    hasFlag (journalFlushMd zeroMetadata) LAST_FLUSHED_VALID = false ∧
    journalFlushMd zeroMetadata = zeroMetadata := by
  decide

/-- Claim C3 (amended): journal_flush returns Ok, and if SERIAL_TO_VALID is
set it sets last_flushed to last_serial and sets LAST_FLUSHED_VALID;
otherwise it leaves the metadata unchanged. -/
theorem c3_flush_amended (st : JournalState) :
    (journalFlush st).2 = Err.EOK ∧
    (hasFlag st.metadata SERIAL_TO_VALID = true →
      (journalFlush st).1.metadata =
        { st.metadata with
            last_flushed := st.metadata.last_serial,
            flags := st.metadata.flags ||| LAST_FLUSHED_VALID }) ∧
    (hasFlag st.metadata SERIAL_TO_VALID = false →
      (journalFlush st).1.metadata = st.metadata) := by
  refine ⟨rfl, fun h => ?_, fun h => ?_⟩ <;>
    simp [journalFlush, journalFlushMd, h]

/-- Witness for c3_flush_amended at a concrete state with SERIAL_TO_VALID set. -/
theorem c3_flush_amended_witness :
    (journalFlush ⟨[], [], { zeroMetadata with last_serial := 7, flags := SERIAL_TO_VALID }⟩).1.metadata
      = { zeroMetadata with
            last_serial := 7,
            last_flushed := 7,
            flags := SERIAL_TO_VALID ||| LAST_FLUSHED_VALID } := by
  have h := c3_flush_amended ⟨[], [], { zeroMetadata with last_serial := 7, flags := SERIAL_TO_VALID }⟩
  have h2 := h.2.1 (by decide)
  simpa using h2

/-- Claim C4 (code_bug evaluation): store_metadata on a metadata state with
dirty_serial = 5 and merged_serial = 7 persists the value 7 under the key
named dirty_serial (source line 437 passes j->metadata.merged_serial), not
the dirty_serial field value 5 the claim requires. -/
theorem c4_store_metadata_dirty_serial_bug :
    lookupMeta (storeMetadata { zeroMetadata with dirty_serial := 5, merged_serial := 7 } "z" [])
        "dirty_serial" = some (MetaVal.num 7) ∧
    ({ zeroMetadata with dirty_serial := 5, merged_serial := 7 } : Metadata).dirty_serial = 5 := by
  decide

/-- Claim C2 counterexample: the claim says the allowed occupied fraction is
1 - 0.33 when a merged changeset is present and 1 - 0.67 in the for-merge
case; the source constants are DB_KEEP_MERGED = 0.44 and
DB_KEEP_FORMERGE = 0.72, so at a concrete metadata state with
MERGED_SERIAL_VALID set the computed fraction differs from the claimed one
(and likewise in the for-merge case). -/
theorem c2_keep_fractions_counterexample :
    allowedOccupied { zeroMetadata with flags := MERGED_SERIAL_VALID } false ≠ 1 - 33/100 ∧
    allowedOccupied zeroMetadata true ≠ 1 - 67/100 := by
  have h1 : hasFlag { zeroMetadata with flags := MERGED_SERIAL_VALID } MERGED_SERIAL_VALID = true := by
    decide
  have h2 : hasFlag zeroMetadata MERGED_SERIAL_VALID = false := by decide
  constructor
  · norm_num [allowedOccupied, h1, DB_KEEP_MERGED]
  · norm_num [allowedOccupied, h2, DB_KEEP_FORMERGE]

/-- Claim C2 (amended): the allowed occupied fraction is 1 - 0.5 with no
merged changeset and merging disallowed, 1 - 0.44 when a merged changeset is
present, and 1 - 0.72 when merging is allowed but no merged changeset exists
yet; when occupancy exceeds the allowed fraction the minimum to free is the
excess fraction of fslimit, and the requested amount to reclaim is always
3 times the computed minimum. -/
theorem c2_free_space_amended (md : Metadata) (ma : Bool) (occ : ℚ) (fsl : Nat) :
    (hasFlag md MERGED_SERIAL_VALID = true → allowedOccupied md ma = 1 - 44/100) ∧
    (hasFlag md MERGED_SERIAL_VALID = false → ma = true → allowedOccupied md ma = 1 - 72/100) ∧
    (hasFlag md MERGED_SERIAL_VALID = false → ma = false → allowedOccupied md ma = 1 - 5/10) ∧
    (allowedOccupied md ma < occ →
      (checkFreeSpace md ma occ fsl).2 = ((occ - allowedOccupied md ma) * fsl).floor.toNat) ∧
    (checkFreeSpace md ma occ fsl).1 = 3 * (checkFreeSpace md ma occ fsl).2 := by
  refine ⟨fun h => ?_, fun h h2 => ?_, fun h h2 => ?_, fun h => ?_, ?_⟩
  · simp [allowedOccupied, h, DB_KEEP_MERGED]
  · simp [allowedOccupied, h, h2, DB_KEEP_FORMERGE]
  · simp [allowedOccupied, h, h2, DB_KEEP_FREE]
  · simp [checkFreeSpace, h]
  · simp [checkFreeSpace, DB_DISPOSE_FACTOR]

/-- Witness for c2_free_space_amended: with a merged changeset present,
occupancy 0.9 and fslimit 1000, the allowed fraction is 0.56, the minimum
to free is 340 bytes and the requested amount is 1020 = 3 x 340. -/
theorem c2_free_space_amended_witness :
    allowedOccupied { zeroMetadata with flags := MERGED_SERIAL_VALID } false = 1 - 44/100 ∧
    (checkFreeSpace { zeroMetadata with flags := MERGED_SERIAL_VALID } false (9/10) 1000).1
      = 3 * (checkFreeSpace { zeroMetadata with flags := MERGED_SERIAL_VALID } false (9/10) 1000).2 := by
  have h := c2_free_space_amended { zeroMetadata with flags := MERGED_SERIAL_VALID } false (9/10) 1000
  exact ⟨h.1 (by decide), h.2.2.2.2⟩

/-- Claim C8: in journal_open, when the KV reports a map size larger than the
journal's fslimit, an unflushed journal makes open return the retry-after-
flush error with the on-disk state and metadata intact, while a flushed one
is deinitialized, its directory removed, and a fresh journal initialized,
succeeding with all-zero metadata. -/
theorem c8_open_resize {δ : Type} (ms fsl : Nat) (md : Metadata) (disk freshDisk : δ)
    (removeOk : Bool) (h : ms > fsl) :
    (isFlushed md = false →
      journalOpenResize ms fsl md disk freshDisk removeOk = OpenOutcome.retry disk md) ∧
    (isFlushed md = true → removeOk = true →
      journalOpenResize ms fsl md disk freshDisk removeOk
        = OpenOutcome.opened freshDisk zeroMetadata) := by
  constructor
  · intro hf; simp [journalOpenResize, h, hf]
  · intro hf hr; simp [journalOpenResize, h, hf, hr]

/-- Witness for c8_open_resize: a fully flushed journal (all-zero metadata)
opened with mapsize 2 MiB against fslimit 1 MiB is reinitialized fresh, and
an unflushed one is told to retry. -/
theorem c8_open_resize_witness :
    journalOpenResize 2097152 1048576 zeroMetadata (5 : Nat) 0 true
      = OpenOutcome.opened 0 zeroMetadata ∧
    journalOpenResize 2097152 1048576
        { zeroMetadata with last_serial := 1, flags := SERIAL_TO_VALID } (5 : Nat) 0 true
      = OpenOutcome.retry 5 { zeroMetadata with last_serial := 1, flags := SERIAL_TO_VALID } := by
  constructor
  · exact (c8_open_resize 2097152 1048576 zeroMetadata 5 0 true (by norm_num)).2 (by decide) rfl
  · exact (c8_open_resize 2097152 1048576
      { zeroMetadata with last_serial := 1, flags := SERIAL_TO_VALID } 5 0 true (by norm_num)).1
      (by decide)

/-- Deleting one key does not affect lookups of other keys. -/
theorem findChunk_delChunk_ne (db : ChunkDb) (k k2 : ChunkKey) (h : k2 ≠ k) :
    findChunk (delChunk db k) k2 = findChunk db k2 := by
  induction db with
  | nil => rfl
  | cons e rest ih =>
    by_cases he : e.1 = k
    · have h1 : ¬ ((fun x => x.1 != k) e) = true := by simp [he]
      have h2 : ¬ ((fun x => x.1 == k2) e) = true := by
        simp only [beq_iff_eq]
        intro hh
        exact h (hh ▸ he)
      unfold delChunk findChunk
      rw [@List.filter_cons_of_neg _ (fun x => x.1 != k) e rest h1,
        @List.find?_cons_of_neg _ (fun x => x.1 == k2) e rest h2]
      exact ih
    · have h1 : ((fun x => x.1 != k) e) = true := by simp [he]
      unfold delChunk findChunk
      rw [@List.filter_cons_of_pos _ (fun x => x.1 != k) e rest h1]
      by_cases hk2 : e.1 = k2
      · have h2 : ((fun x => x.1 == k2) e) = true := by simp [hk2]
        rw [@List.find?_cons_of_pos _ (fun x => x.1 == k2) e (List.filter (fun x => x.1 != k) rest) h2,
          @List.find?_cons_of_pos _ (fun x => x.1 == k2) e rest h2]
      · have h2 : ¬ ((fun x => x.1 == k2) e) = true := by simp [hk2]
        rw [@List.find?_cons_of_neg _ (fun x => x.1 == k2) e (List.filter (fun x => x.1 != k) rest) h2,
          @List.find?_cons_of_neg _ (fun x => x.1 == k2) e rest h2]
        exact ih

/-- A successful chain walk is insensitive to changes of the database
outside the keys it visits. -/
theorem walkUpto_congr (db1 db2 : ChunkDb) (lf : Nat) :
    ∀ (fuel s i : Nat) (l : List ChunkKey),
      walkUpto db1 lf fuel s i = some l →
      (∀ k ∈ l, findChunk db2 k = findChunk db1 k) →
      walkUpto db2 lf fuel s i = some l := by
  intro fuel
  induction fuel with
  | zero => intro s i l h; simp [walkUpto] at h
  | succ fuel ih =>
    intro s i l h hk
    rw [walkUpto] at h
    cases hf : findChunk db1 (s, i) with
    | none => rw [hf] at h; exact Option.noConfusion h
    | some c =>
      simp only [hf] at h
      by_cases hcnt : i + 1 = c.chunk_count
      · rw [if_pos hcnt] at h
        by_cases hlf : s = lf
        · rw [if_pos hlf] at h
          have hl := Option.some.inj h
          subst hl
          rw [walkUpto]
          simp only [hk (s, i) (List.mem_singleton.mpr rfl), hf]
          rw [if_pos hcnt, if_pos hlf]
        · rw [if_neg hlf] at h
          cases hrec : walkUpto db1 lf fuel c.serial_to 0 with
          | none => rw [hrec] at h; exact Option.noConfusion h
          | some l2 =>
            rw [hrec] at h
            simp only [Option.map] at h
            have hl := Option.some.inj h
            subst hl
            have hsub : ∀ k ∈ l2, findChunk db2 k = findChunk db1 k := by
              intro k hk2
              exact hk k (List.mem_cons_of_mem _ hk2)
            rw [walkUpto]
            simp only [hk (s, i) (List.mem_cons_self _ _), hf]
            rw [if_pos hcnt, if_neg hlf, ih c.serial_to 0 l2 hrec hsub]
            rfl
      · rw [if_neg hcnt] at h
        cases hrec : walkUpto db1 lf fuel s (i + 1) with
        | none => rw [hrec] at h; exact Option.noConfusion h
        | some l2 =>
          rw [hrec] at h
          simp only [Option.map] at h
          have hl := Option.some.inj h
          subst hl
          have hsub : ∀ k ∈ l2, findChunk db2 k = findChunk db1 k := by
            intro k hk2
            exact hk k (List.mem_cons_of_mem _ hk2)
          rw [walkUpto]
          simp only [hk (s, i) (List.mem_cons_self _ _), hf]
          rw [if_neg hcnt, ih s (i + 1) l2 hrec hsub]
          rfl

/-- Once to_be_freed is exhausted the deletion loop changes nothing: the
callback is a no-op and the walk only reads. -/
theorem delLoop_zero (last : Nat) :
    ∀ (fuel s i : Nat) (st st2 : DelState), st.toBeFreed = 0 →
      delTofreeLoop last fuel s i st = some st2 → st2 = st := by
  intro fuel
  induction fuel with
  | zero => intro s i st st2 _ h; simp [delTofreeLoop] at h
  | succ fuel ih =>
    intro s i st st2 hz h
    rw [delTofreeLoop] at h
    cases hf : findChunk st.db (s, i) with
    | none => rw [hf] at h; exact Option.noConfusion h
    | some c =>
      simp only [hf] at h
      have hcb : delTofreeCb s i c st = st := by rw [delTofreeCb, if_pos hz]
      rw [hcb] at h
      by_cases hcnt : i + 1 = c.chunk_count
      · rw [if_pos hcnt] at h
        by_cases hlast : s = last
        · rw [if_pos hlast] at h
          exact (Option.some.inj h).symm
        · rw [if_neg hlast] at h
          exact ih c.serial_to 0 st st2 hz h
      · rw [if_neg hcnt] at h
        exact ih s (i + 1) st st2 hz h

/-- The changeset iteration invariant: on success the output list is
nonempty, its head changeset starts at the serial of the current position,
and consecutive changesets chain serial_to to serial_from. The accumulator
holds the chunks of the current changeset read so far, at keys
(s, 0 .. i-1). -/
theorem iterCs_chain (deser : List (List Nat) → Option Changeset) (db : ChunkDb)
    (last : Nat) (hwf : DeserWF deser db) :
    ∀ (fuel s i : Nat) (acc : List Chunk) (out : List Changeset),
      acc.length = i →
      (∀ j cj, acc[j]? = some cj → findChunk db (s, j) = some cj) →
      iterCs deser db last fuel s i acc = some out →
      ∃ ch rest, out = ch :: rest ∧ ch.serial_from = s ∧
        List.Chain' (fun a b => a.serial_to = b.serial_from) out := by
  intro fuel
  induction fuel with
  | zero => intro s i acc out _ _ h; simp [iterCs] at h
  | succ fuel ih =>
    intro s i acc out hlen hget h
    rw [iterCs] at h
    cases hf : findChunk db (s, i) with
    | none => rw [hf] at h; exact Option.noConfusion h
    | some c =>
      simp only [hf] at h
      by_cases hcnt : i + 1 = c.chunk_count
      · rw [if_pos hcnt] at h
        cases hd : deser ((acc ++ [c]).map Chunk.payload) with
        | none => rw [hd] at h; exact Option.noConfusion h
        | some ch =>
          simp only [hd] at h
          have hch := hwf s i acc c ch hlen hget hf hcnt hd
          by_cases hlast : s = last
          · rw [if_pos hlast] at h
            have hout := Option.some.inj h
            subst hout
            exact ⟨ch, [], rfl, hch.1, List.chain'_singleton ch⟩
          · rw [if_neg hlast] at h
            cases hrec : iterCs deser db last fuel c.serial_to 0 [] with
            | none => rw [hrec] at h; exact Option.noConfusion h
            | some rest =>
              rw [hrec] at h
              simp only [Option.map] at h
              have hout := Option.some.inj h
              subst hout
              obtain ⟨ch2, rest2, hre, hfrom2, hchain⟩ :=
                ih c.serial_to 0 [] rest rfl (by intro j cj hj; simp at hj) hrec
              subst hre
              refine ⟨ch, ch2 :: rest2, rfl, hch.1, ?_⟩
              rw [List.chain'_cons]
              exact ⟨hch.2.trans hfrom2.symm, hchain⟩
      · rw [if_neg hcnt] at h
        have hlen2 : (acc ++ [c]).length = i + 1 := by simp [hlen]
        have hget2 : ∀ j cj, (acc ++ [c])[j]? = some cj → findChunk db (s, j) = some cj := by
          intro j cj hj
          by_cases hji : j < acc.length
          · rw [List.getElem?_append_left hji] at hj
            exact hget j cj hj
          · have hjlt : j < acc.length + 1 := by
              by_contra hh
              rw [List.getElem?_eq_none (by simp; omega)] at hj
              exact Option.noConfusion hj
            have hje : j = acc.length := by omega
            subst hje
            rw [List.getElem?_concat_length] at hj
            rw [← Option.some.inj hj, hlen]
            exact hf
        exact ih s (i + 1) (acc ++ [c]) out hlen2 hget2 h

/-- Claim C6: under the continuity invariant I2 together with the
serializer round-trip contract (DeserWF: chunks stored for serial s
deserialize to a changeset with serial_from = s and serial_to equal to the
chunk header's serial_to), every successful journal_load_changesets call
returns a gap-free list: each returned changeset's serial_to equals the
next one's serial_from. -/
theorem c6_load_changesets_gap_free (deser : List (List Nat) → Option Changeset)
    (db : ChunkDb) (md : Metadata) (frm fuel : Nat) (out : List Changeset)
    (hwf : DeserWF deser db)
    (h : journalLoadChangesets deser fuel db md frm = some out) :
    List.Chain' (fun a b => a.serial_to = b.serial_from) out := by
  rw [journalLoadChangesets] at h
  by_cases hm : (hasFlag md MERGED_SERIAL_VALID && frm == md.merged_serial) = true
  · rw [if_pos hm] at h
    cases hone : loadOne deser fuel db md.merged_serial with
    | none => rw [hone] at h; exact Option.noConfusion h
    | some mch =>
      simp only [hone] at h
      cases hrec : iterCs deser db md.last_serial fuel mch.serial_to 0 [] with
      | none => rw [hrec] at h; exact Option.noConfusion h
      | some rest =>
        rw [hrec] at h
        simp only [Option.map] at h
        have hout := Option.some.inj h
        subst hout
        obtain ⟨ch2, rest2, hre, hfrom2, hchain⟩ :=
          iterCs_chain deser db md.last_serial hwf fuel mch.serial_to 0 [] rest rfl
            (by intro j cj hj; simp at hj) hrec
        subst hre
        rw [List.chain'_cons]
        exact ⟨hfrom2.symm, hchain⟩
  · rw [if_neg hm] at h
    obtain ⟨ch, rest, hre, _, hchain⟩ :=
      iterCs_chain deser db md.last_serial hwf fuel frm 0 [] out rfl
        (by intro j cj hj; simp at hj) h
    subst hre
    exact hchain

/-- The witness deserializer satisfies the round-trip contract on the
witness database dbW6. -/
theorem deserW_wf_dbW6 : DeserWF deserW dbW6 := by
  intro s i acc c ch hlen hget hfind hcnt hdeser
  have hk : (s = 5 ∧ i = 0 ∧ c = ⟨6, 1, 20, [5, 6]⟩) ∨
      (s = 6 ∧ i = 0 ∧ c = ⟨7, 1, 20, [6, 7]⟩) := by
    have h0 := hfind
    rw [dbW6, findChunk] at h0
    by_cases h1 : ((5, 0) : ChunkKey) = (s, i)
    · left
      obtain ⟨hs, hi⟩ := Prod.mk.inj h1
      rw [List.find?_cons_of_pos _ (by simp only [beq_iff_eq]; exact h1)] at h0
      simp only [Option.map] at h0
      exact ⟨hs.symm, hi.symm, (Option.some.inj h0).symm⟩
    · rw [List.find?_cons_of_neg _ (by simp only [beq_iff_eq]; exact h1)] at h0
      by_cases h2 : ((6, 0) : ChunkKey) = (s, i)
      · right
        obtain ⟨hs, hi⟩ := Prod.mk.inj h2
        rw [List.find?_cons_of_pos _ (by simp only [beq_iff_eq]; exact h2)] at h0
        simp only [Option.map] at h0
        exact ⟨hs.symm, hi.symm, (Option.some.inj h0).symm⟩
      · rw [List.find?_cons_of_neg _ (by simp only [beq_iff_eq]; exact h2)] at h0
        simp at h0
  rcases hk with ⟨hs, hi, hc⟩ | ⟨hs, hi, hc⟩ <;>
  · subst hs
    subst hi
    subst hc
    have hacc : acc = [] := List.length_eq_zero.mp hlen
    subst hacc
    simp only [List.nil_append, List.map, deserW] at hdeser
    rw [← Option.some.inj hdeser]
    exact ⟨rfl, rfl⟩

/-- Witness for C6 at a concrete journal: loading from serial 5 on a DB with
chained changesets 5 -> 6 -> 7 yields the gap-free list [5 -> 6, 6 -> 7]. -/
theorem c6_load_changesets_gap_free_witness :
    List.Chain' (fun a b => a.serial_to = b.serial_from)
      [(⟨5, 6⟩ : Changeset), ⟨6, 7⟩] :=
  c6_load_changesets_gap_free deserW dbW6 mdW6 5 10 [⟨5, 6⟩, ⟨6, 7⟩] deserW_wf_dbW6
    (by decide)

/-- Claim C5: when MERGED_SERIAL_VALID is set and the requested serial equals
merged_serial, a successful journal_load_changesets first loads the merged
changeset and puts it at the head of the output, and the remaining output is
exactly the changeset iteration from the merged changeset's serial_to up to
last_serial — so the output is ordered oldest first with the merged
changeset at the head. -/
theorem c5_load_merged_head (deser : List (List Nat) → Option Changeset) (fuel : Nat)
    (db : ChunkDb) (md : Metadata) (frm : Nat) (out : List Changeset)
    (hm : hasFlag md MERGED_SERIAL_VALID = true) (hfr : frm = md.merged_serial)
    (h : journalLoadChangesets deser fuel db md frm = some out) :
    ∃ mch rest, loadOne deser fuel db md.merged_serial = some mch ∧
      out = mch :: rest ∧
      iterCs deser db md.last_serial fuel mch.serial_to 0 [] = some rest := by
  rw [journalLoadChangesets] at h
  rw [if_pos (by simp [hm, hfr])] at h
  cases hone : loadOne deser fuel db md.merged_serial with
  | none => rw [hone] at h; exact Option.noConfusion h
  | some mch =>
    simp only [hone] at h
    cases hrec : iterCs deser db md.last_serial fuel mch.serial_to 0 [] with
    | none => rw [hrec] at h; exact Option.noConfusion h
    | some rest =>
      rw [hrec] at h
      simp only [Option.map] at h
      exact ⟨mch, rest, rfl, (Option.some.inj h).symm, hrec⟩

/-- Witness for C5 at a concrete journal: a merged changeset 100 -> 5 and a
main changeset 5 -> 6; loading from 100 yields the merged changeset at the
head followed by the iteration from serial 5. -/
theorem c5_load_merged_head_witness :
    ∃ mch rest, loadOne deserW 10 dbW5 mdW5.merged_serial = some mch ∧
      ([(⟨100, 5⟩ : Changeset), ⟨5, 6⟩] : List Changeset) = mch :: rest ∧
      iterCs deserW dbW5 mdW5.last_serial 10 mch.serial_to 0 [] = some rest :=
  c5_load_merged_head deserW 10 dbW5 mdW5 100 [⟨100, 5⟩, ⟨5, 6⟩] (by decide) (by decide)
    (by decide)

/-- While deleting, the callback's effect on the chunk keyspace is exactly
the deletion of the current chunk. -/
theorem delTofreeCb_db (s i : Nat) (c : Chunk) (st : DelState) (hz : st.toBeFreed ≠ 0) :
    (delTofreeCb s i c st).db = delChunk st.db (s, i) := by
  rw [delTofreeCb, if_neg hz]
  by_cases hcnt : i + 1 = c.chunk_count <;> simp [hcnt]

/-- The callback never modifies last_flushed in the shadow metadata. -/
theorem delTofreeCb_lf (s i : Nat) (c : Chunk) (st : DelState) :
    (delTofreeCb s i c st).md.last_flushed = st.md.last_flushed := by
  by_cases hz : st.toBeFreed = 0
  · rw [delTofreeCb, if_pos hz]
  · rw [delTofreeCb, if_neg hz]
    by_cases hcnt : i + 1 = c.chunk_count
    · rw [if_pos hcnt]
      by_cases hlf : st.md.last_flushed = s <;>
        by_cases hls : st.md.last_serial = s <;>
          simp [hlf, hls]
    · rw [if_neg hcnt]

/-- Finishing the last-flushed changeset zeroes to_be_freed: no further
chunk is deleted afterwards. -/
theorem delTofreeCb_end_lfhit (s i : Nat) (c : Chunk) (st : DelState)
    (hz : st.toBeFreed ≠ 0) (hcnt : i + 1 = c.chunk_count)
    (hlf : st.md.last_flushed = s) :
    (delTofreeCb s i c st).toBeFreed = 0 := by
  rw [delTofreeCb, if_neg hz, if_pos hcnt]
  simp [hlf]

/-- The heart of C7: on a successful run of the deletion loop, any key
outside the chain walk from the current position up to the last-flushed
changeset keeps its value. Once the walk finishes the last-flushed
changeset, to_be_freed is zeroed and the rest of the run deletes nothing. -/
theorem delLoop_preserves (last lf : Nat) :
    ∀ (fuel s i : Nat) (st st2 : DelState),
      st.md.last_flushed = lf →
      delTofreeLoop last fuel s i st = some st2 →
      ∀ (f2 : Nat) (pks : List ChunkKey),
        walkUpto st.db lf f2 s i = some pks → pks.Nodup →
        ∀ k v, findChunk st.db k = some v → k ∉ pks → findChunk st2.db k = some v := by
  intro fuel
  induction fuel with
  | zero => intro s i st st2 _ h; simp [delTofreeLoop] at h
  | succ fuel ih =>
    intro s i st st2 hlfmd h f2 pks hw hnd k v hk hknotin
    by_cases hz : st.toBeFreed = 0
    · rw [delLoop_zero last (fuel + 1) s i st st2 hz h]
      exact hk
    rw [delTofreeLoop] at h
    cases hf : findChunk st.db (s, i) with
    | none => rw [hf] at h; exact Option.noConfusion h
    | some c =>
      simp only [hf] at h
      cases f2 with
      | zero => simp [walkUpto] at hw
      | succ f2 =>
        rw [walkUpto] at hw
        simp only [hf] at hw
        have hdb2 : (delTofreeCb s i c st).db = delChunk st.db (s, i) :=
          delTofreeCb_db s i c st hz
        have hlf2 : (delTofreeCb s i c st).md.last_flushed = lf := by
          rw [delTofreeCb_lf]; exact hlfmd
        by_cases hcnt : i + 1 = c.chunk_count
        · rw [if_pos hcnt] at h hw
          by_cases hslf : s = lf
          · rw [if_pos hslf] at hw
            have hpks := Option.some.inj hw
            subst hpks
            have hkne : k ≠ (s, i) := fun hh => hknotin (hh ▸ List.mem_singleton.mpr rfl)
            have htbf0 : (delTofreeCb s i c st).toBeFreed = 0 :=
              delTofreeCb_end_lfhit s i c st hz hcnt (hlfmd.trans hslf.symm)
            have hpres : findChunk (delTofreeCb s i c st).db k = some v := by
              rw [hdb2, findChunk_delChunk_ne st.db (s, i) k hkne]
              exact hk
            by_cases hlast : s = last
            · rw [if_pos hlast] at h
              rw [← Option.some.inj h]
              exact hpres
            · rw [if_neg hlast] at h
              rw [delLoop_zero last fuel c.serial_to 0 _ st2 htbf0 h]
              exact hpres
          · rw [if_neg hslf] at hw
            cases hwrec : walkUpto st.db lf f2 c.serial_to 0 with
            | none => rw [hwrec] at hw; exact Option.noConfusion hw
            | some pks2 =>
              rw [hwrec] at hw
              simp only [Option.map] at hw
              have hpks := Option.some.inj hw
              subst hpks
              have hkne : k ≠ (s, i) := fun hh => hknotin (hh ▸ List.mem_cons_self _ _)
              have hknotin2 : k ∉ pks2 := fun hh => hknotin (List.mem_cons_of_mem _ hh)
              have hnotin_si : (s, i) ∉ pks2 := (List.nodup_cons.mp hnd).1
              have hnd2 : pks2.Nodup := (List.nodup_cons.mp hnd).2
              have hpres : findChunk (delTofreeCb s i c st).db k = some v := by
                rw [hdb2, findChunk_delChunk_ne st.db (s, i) k hkne]
                exact hk
              by_cases hlast : s = last
              · rw [if_pos hlast] at h
                rw [← Option.some.inj h]
                exact hpres
              · rw [if_neg hlast] at h
                have hcong : ∀ k2 ∈ pks2,
                    findChunk (delTofreeCb s i c st).db k2 = findChunk st.db k2 := by
                  intro k2 hk2
                  have hne : k2 ≠ (s, i) := fun hh => hnotin_si (hh ▸ hk2)
                  rw [hdb2, findChunk_delChunk_ne st.db (s, i) k2 hne]
                have hw2 : walkUpto (delTofreeCb s i c st).db lf f2 c.serial_to 0 = some pks2 :=
                  walkUpto_congr st.db (delTofreeCb s i c st).db lf f2 c.serial_to 0 pks2
                    hwrec hcong
                exact ih c.serial_to 0 _ st2 hlf2 h f2 pks2 hw2 hnd2 k v hpres hknotin2
        · rw [if_neg hcnt] at h hw
          cases hwrec : walkUpto st.db lf f2 s (i + 1) with
          | none => rw [hwrec] at hw; exact Option.noConfusion hw
          | some pks2 =>
            rw [hwrec] at hw
            simp only [Option.map] at hw
            have hpks := Option.some.inj hw
            subst hpks
            have hkne : k ≠ (s, i) := fun hh => hknotin (hh ▸ List.mem_cons_self _ _)
            have hknotin2 : k ∉ pks2 := fun hh => hknotin (List.mem_cons_of_mem _ hh)
            have hnotin_si : (s, i) ∉ pks2 := (List.nodup_cons.mp hnd).1
            have hnd2 : pks2.Nodup := (List.nodup_cons.mp hnd).2
            have hpres : findChunk (delTofreeCb s i c st).db k = some v := by
              rw [hdb2, findChunk_delChunk_ne st.db (s, i) k hkne]
              exact hk
            have hcong : ∀ k2 ∈ pks2,
                findChunk (delTofreeCb s i c st).db k2 = findChunk st.db k2 := by
              intro k2 hk2
              have hne : k2 ≠ (s, i) := fun hh => hnotin_si (hh ▸ hk2)
              rw [hdb2, findChunk_delChunk_ne st.db (s, i) k2 hne]
            have hw2 : walkUpto (delTofreeCb s i c st).db lf f2 s (i + 1) = some pks2 :=
              walkUpto_congr st.db (delTofreeCb s i c st).db lf f2 s (i + 1) pks2 hwrec hcong
            exact ih s (i + 1) _ st2 hlf2 h f2 pks2 hw2 hnd2 k v hpres hknotin2

/-- Claim C7: delete_tofree preserves all unflushed data. Without
LAST_FLUSHED_VALID it deletes nothing and reports 0 bytes freed. With the
flag set, any successful run deletes chunks only of changesets on the chain
from the oldest up to at most the one whose serial_from equals last_flushed
(the walk pks, assumed free of key repetitions): every chunk whose key lies
outside that prefix, in particular every chunk of every changeset strictly
after the last-flushed one, is still present with its value afterwards. -/
theorem c7_delete_tofree_preserves_unflushed (fuel : Nat) (db : ChunkDb) (md : Metadata)
    (tbf : Nat) (res : ChunkDb × Metadata × Nat)
    (hres : deleteTofree fuel db md tbf = some res) :
    (hasFlag md LAST_FLUSHED_VALID = false → res = (db, md, 0)) ∧
    (hasFlag md LAST_FLUSHED_VALID = true →
      ∀ (f2 : Nat) (pks : List ChunkKey),
        walkUpto db md.last_flushed f2 md.first_serial 0 = some pks → pks.Nodup →
        ∀ k v, findChunk db k = some v → k ∉ pks → findChunk res.1 k = some v) := by
  constructor
  · intro hflag
    rw [deleteTofree] at hres
    rw [hflag] at hres
    simp only [Bool.not_false, if_pos] at hres
    exact (Option.some.inj hres).symm
  · intro hflag f2 pks hw hnd k v hk hkn
    rw [deleteTofree] at hres
    rw [hflag] at hres
    simp only [Bool.not_true, Bool.false_eq_true, if_false] at hres
    cases hloop : delTofreeLoop md.last_serial fuel md.first_serial 0 ⟨db, md, 0, tbf⟩ with
    | none => rw [hloop] at hres; exact Option.noConfusion hres
    | some st =>
      rw [hloop] at hres
      have hr := Option.some.inj hres
      have hpres := delLoop_preserves md.last_serial md.last_flushed fuel md.first_serial 0
        ⟨db, md, 0, tbf⟩ st rfl hloop f2 pks hw hnd k v hk hkn
      rw [← hr]
      exact hpres

/-- Witness for C7 at a concrete journal: changesets 5 -> 6 (flushed) and
6 -> 7 (unflushed); after delete_tofree with a large request the unflushed
chunk (6, 0) is still present. -/
theorem c7_delete_tofree_preserves_unflushed_witness :
    findChunk ([((6, 0), ⟨7, 1, 100, []⟩)] : ChunkDb) (6, 0) = some ⟨7, 1, 100, []⟩ :=
  (c7_delete_tofree_preserves_unflushed 10 dbW7 mdW7 1000000
      ([((6, 0), ⟨7, 1, 100, []⟩)], ⟨6, 6, 7, 5, 0, 0, 2⟩, 4196) (by decide)).2
    (by decide) 1 [(5, 0)] (by decide) (by decide) (6, 0) ⟨7, 1, 100, []⟩ (by decide) (by decide)

/-- Claim C10: journal_flush performs no KV operation at all: both keyspaces
of the backing DB are untouched (in particular the persisted last_flushed
value and flags), and only the in-memory metadata mirror is updated. -/
theorem c10_flush_no_db_writes (st : JournalState) :
    (journalFlush st).1.dataDb = st.dataDb ∧
    (journalFlush st).1.metaDb = st.metaDb ∧
    lookupMeta (journalFlush st).1.metaDb "last_flushed" = lookupMeta st.metaDb "last_flushed" ∧
    lookupMeta (journalFlush st).1.metaDb "flags" = lookupMeta st.metaDb "flags" ∧
    (journalFlush st).1.metadata = journalFlushMd st.metadata := by
  exact ⟨rfl, rfl, rfl, rfl, rfl⟩

end Knot
